import Mathlib

/-!
Shallow embedding of the `filebuffer` crate (ruuda/filebuffer).

The crate maps a file into memory and offers residency queries
(`resident_len`), an advisory `prefetch`, and a `leak` operation on the
mapping.  Machine integers (`usize`) are modelled as `Nat` together with
explicit wrapping arithmetic modulo `2^64` (release-mode semantics of the
compiled library); panics (`assert!`, contract violations) are modelled by
`Option`/sum results; OS calls (`mincore`, `mmap`, `CreateFileMappingW`,
`MapViewOfFile`, `madvise`) are modelled by oracles passed in as arguments,
and the calls the code issues are recorded as explicit traces.
-/

/-- `2^64`, the modulus of `usize` arithmetic (64-bit platform). -/
def usizeMod : Nat := 2 ^ 64

/-- `usize::max_value()`. -/
def usizeMax : Nat := usizeMod - 1

/-- Wrapping `usize` addition. -/
def wadd (a b : Nat) : Nat := (a + b) % usizeMod

/-- Wrapping `usize` subtraction (`a - b` on `usize`, two's complement wrap). -/
def wsub (a b : Nat) : Nat := (a % usizeMod + (usizeMod - b % usizeMod)) % usizeMod

/-- Wrapping `usize` multiplication. -/
def wmul (a b : Nat) : Nat := (a * b) % usizeMod

/-- Bitwise complement on `usize`: `!x` in Rust, i.e. xor with all ones. -/
def wnot (x : Nat) : Nat := usizeMax ^^^ x

/-- `fn round_up_to(size, power_of_two) = (size + (power_of_two - 1)) & !(power_of_two - 1)`
(src/lib.rs); the addition is `usize` addition and hence wraps. -/
def round_up_to (size power_of_two : Nat) : Nat :=
  wadd size (power_of_two - 1) &&& wnot (power_of_two - 1)

/-- `fn round_down_to(size, power_of_two) = size & !(power_of_two - 1)` (src/lib.rs). -/
def round_down_to (size power_of_two : Nat) : Nat :=
  size &&& wnot (power_of_two - 1)

/-- The state of a `FileBuffer` (src/lib.rs): page size, base pointer
(`0` plays the role of `ptr::null()`), and total mapped length.
The platform data is modelled separately where a claim needs it. -/
structure FileBuffer where
  page_size : Nat
  buffer : Nat
  length : Nat
  deriving DecidableEq

/-- One `get_resident` call issued by the `resident_len` loop, in page
units: the first page queried (counted from the start of the buffer, i.e.
`check_offset / page_size`) and how many pages the call covers
(`check_length / page_size`). -/
structure MincoreBatch where
  startPage : Nat
  numPages : Nat
  deriving DecidableEq

/-- `unix::get_resident` writing the residency vector (src/unix.rs): entry
`j` of the result is whether page `start + j` of the buffer is resident.
The OS page-residency state is abstracted as `res : Nat → Bool`, indexed by
page number counted from the start of the buffer. -/
def unix_get_resident (res : Nat → Bool) (start : Nat) : Nat → List Bool
  | 0 => []
  | n + 1 => res start :: unix_get_resident res (start + 1) n

/-- `windows::get_resident` (src/windows.rs) ignores the queried range and
reports every page as resident ("Lie and pretend everything is
resident."). -/
def windows_get_resident (_start : Nat) (n : Nat) : List Bool :=
  List.replicate n true

/-- `residency[..pages_to_check].iter().position(|resident| !resident)`:
the index of the first `false` entry, if any. -/
def position_not : List Bool → Option Nat
  | [] => none
  | b :: bs => if !b then some 0 else (position_not bs).map (· + 1)

/-- The `while pages_checked < num_pages` loop of `FileBuffer::resident_len`
(src/lib.rs), parametrised over the platform's `get_resident`.  Returns the
final `pages_resident` count together with the trace of `get_resident`
calls made.  The loop advances by at least one page per iteration, so the
`num_pages + 1` units of fuel supplied by `resident_len_run` never run
out. -/
def resident_scan (getRes : Nat → Nat → List Bool) (startPage num_pages : Nat) :
    Nat → Nat → Nat × List MincoreBatch
  | 0, _ => (0, [])
  | fuel + 1, pages_checked =>
    if pages_checked < num_pages then
      let pages_to_check := min 32 (num_pages - pages_checked)
      let residency := getRes (startPage + pages_checked) pages_to_check
      match position_not residency with
      | some non_resident =>
          (non_resident, [⟨startPage + pages_checked, pages_to_check⟩])
      | none =>
          let rest := resident_scan getRes startPage num_pages fuel (pages_checked + pages_to_check)
          (pages_to_check + rest.1, ⟨startPage + pages_checked, pages_to_check⟩ :: rest.2)
    else (0, [])

/-- `FileBuffer::resident_len` (src/lib.rs), with the panic of the bounds
`assert!` modelled as `none`, all `usize` arithmetic wrapping modulo
`2^64`, and the `get_resident` calls recorded alongside the result. -/
def resident_len_run (getRes : Nat → Nat → List Bool) (fb : FileBuffer)
    (offset length : Nat) : Option (Nat × List MincoreBatch) :=
  if wadd offset length ≤ fb.length then
    if fb.buffer = 0 then some (0, [])
    else
      let aligned_offset := round_down_to offset fb.page_size
      let aligned_length := round_up_to (wadd length (wsub offset aligned_offset)) fb.page_size
      let num_pages := aligned_length / fb.page_size
      let scan := resident_scan getRes (aligned_offset / fb.page_size) num_pages (num_pages + 1) 0
      some (min length (wsub (wadd (wmul scan.1 fb.page_size) aligned_offset) offset), scan.2)
  else none

/-- `FileBuffer::resident_len` on a Unix-ish platform: just the returned
count. -/
def resident_len (fb : FileBuffer) (res : Nat → Bool) (offset length : Nat) : Option Nat :=
  (resident_len_run (unix_get_resident res) fb offset length).map Prod.fst

/-- The `get_resident` calls a Unix `resident_len` invocation issues. -/
def resident_len_calls (fb : FileBuffer) (res : Nat → Bool) (offset length : Nat) :
    Option (List MincoreBatch) :=
  (resident_len_run (unix_get_resident res) fb offset length).map Prod.snd

/-- `FileBuffer::resident_len` on Windows (the backend that cannot query
residency). -/
def resident_len_windows (fb : FileBuffer) (offset length : Nat) : Option Nat :=
  (resident_len_run windows_get_resident fb offset length).map Prod.fst

/-- The page-aligned range handed to the OS prefetch advisory, as a byte
offset from the buffer base plus a byte length. -/
structure MadviseCall where
  offset : Nat
  length : Nat
  deriving DecidableEq

/-- `FileBuffer::prefetch` (src/lib.rs): `none` models the panic of the
bounds `assert!`; `some none` is the early return for an empty file (no OS
call); `some (some c)` records the `madvise`/`PrefetchVirtualMemory` call
issued. -/
def prefetch_run (fb : FileBuffer) (offset length : Nat) : Option (Option MadviseCall) :=
  if wadd offset length ≤ fb.length then
    if fb.buffer = 0 then some none
    else
      let aligned_offset := round_down_to offset fb.page_size
      let aligned_length := round_up_to (wadd length (wsub offset aligned_offset)) fb.page_size
      some (some ⟨aligned_offset, aligned_length⟩)
  else none

/-- `FileBuffer::leak` (src/lib.rs): returns the static slice (base
address, length) and the state of the value afterwards — buffer and length
nulled so that `drop` skips `unmap_file`. -/
def leak (fb : FileBuffer) : (Nat × Nat) × FileBuffer :=
  ((fb.buffer, fb.length), { fb with buffer := 0, length := 0 })

/-- A release of a platform resource of the mapping. -/
inductive ReleaseEvent where
  | unmapView
  | closeMappingHandle (handle : Nat)
  deriving DecidableEq

/-- `Drop for FileBuffer` on Unix (src/lib.rs): `unmap_file` is called iff
the buffer pointer is non-null; Unix `PlatformData` owns nothing. -/
def unixDropEvents (fb : FileBuffer) : List ReleaseEvent :=
  if fb.buffer = 0 then [] else [.unmapView]

/-- Windows `PlatformData` (src/windows.rs): the file-mapping object
handle (`0` plays the role of null). -/
structure WinPlatformData where
  mapping_handle : Nat
  deriving DecidableEq

/-- `Drop for PlatformData` (src/windows.rs): `CloseHandle` on the mapping
handle iff it is non-null. -/
def winPlatformDropEvents (pd : WinPlatformData) : List ReleaseEvent :=
  if pd.mapping_handle = 0 then [] else [.closeMappingHandle pd.mapping_handle]

/-- The state of a `FileBuffer` on Windows, where the platform data holds a
live mapping-object handle. -/
structure WinFileBuffer where
  page_size : Nat
  buffer : Nat
  length : Nat
  platform_data : WinPlatformData
  deriving DecidableEq

/-- Destruction of a Windows `FileBuffer`: the `Drop for FileBuffer` body
runs first (unmapping the view iff the buffer is non-null), then the
`platform_data` field is dropped. -/
def winDropEvents (fb : WinFileBuffer) : List ReleaseEvent :=
  (if fb.buffer = 0 then [] else [.unmapView]) ++ winPlatformDropEvents fb.platform_data

/-- `FileBuffer::leak` on Windows: buffer and length are nulled; the
platform data is untouched and is still dropped with the value. -/
def winLeak (fb : WinFileBuffer) : (Nat × Nat) × WinFileBuffer :=
  ((fb.buffer, fb.length), { fb with buffer := 0, length := 0 })

/-- A run of `unix::map_file` (src/unix.rs): whether the `mmap` primitive
was invoked, and the resulting `(buffer, length)` or an error. -/
structure MapRun where
  mmap_called : Bool
  result : Except Unit (Nat × Nat)

/-- `unix::map_file` (src/unix.rs); `mmap` is abstracted as an oracle
giving the address it returns (`none` models `MAP_FAILED`). -/
def map_file (file_len : Nat) (mmap : Option Nat) : MapRun :=
  if file_len > usizeMax then ⟨false, .error ()⟩
  else if file_len = 0 then ⟨false, .ok (0, 0)⟩
  else
    match mmap with
    | none => ⟨true, .error ()⟩
    | some a => ⟨true, .ok (a, file_len)⟩

/-- A run of `windows::map_file` (src/windows.rs): the `CloseHandle` calls
made during the call (from dropping `platform_data` on error paths) and
the result: buffer, length and the surviving platform data. -/
structure WinMapRun where
  closes : List ReleaseEvent
  result : Except Unit (Nat × Nat × WinPlatformData)

/-- `windows::map_file` (src/windows.rs); the two OS steps are abstracted
as oracles: `createMapping` is the handle `CreateFileMappingW` returns and
`mapView` the address `MapViewOfFile` returns (`0` = null = failure). -/
def win_map_file (file_len : Nat) (createMapping mapView : Nat) : WinMapRun :=
  if file_len > usizeMax then ⟨[], .error ()⟩
  else if file_len = 0 then ⟨[], .ok (0, 0, ⟨0⟩)⟩
  else if createMapping = 0 then ⟨winPlatformDropEvents ⟨createMapping⟩, .error ()⟩
  else if mapView = 0 then ⟨winPlatformDropEvents ⟨createMapping⟩, .error ()⟩
  else ⟨[], .ok (mapView, file_len, ⟨createMapping⟩)⟩

/-- Linux `EAGAIN`. -/
def EAGAIN : Int := 11

/-- Outcome of the `mincore` retry loop of `unix::get_resident`: success
or a fatal assertion failure, each after a number of yields, or still
busy-retrying when the fuel ran out. -/
inductive MincoreRun where
  | success (yields : Nat)
  | assertFail (yields : Nat)
  | busy
  deriving DecidableEq

/-- The self-recursive retry of `unix::get_resident` (src/unix.rs): `os k`
is the result of the `k`-th `mincore` attempt.  The recursion in the
source has no bound; the `fuel` argument only truncates the unfolding, and
`MincoreRun.busy` reports that the loop was still retrying when the fuel
ran out.  The `assert!(result == libc::EAGAIN || result == 0)` is checked
before the retry test, exactly as in the source. -/
def get_resident_retry (os : Nat → Int) : Nat → Nat → MincoreRun
  | 0, _ => .busy
  | fuel + 1, k =>
    if os k = EAGAIN ∨ os k = 0 then
      if os k = EAGAIN then get_resident_retry os fuel (k + 1)
      else .success k
    else .assertFail k

/-- Whether all of pages `p .. p + n - 1` are resident. -/
def allResident (res : Nat → Bool) (p n : Nat) : Bool :=
  (unix_get_resident res p n).all id

/-- Well-formedness of the batch trace of `resident_len`, starting at page
`p` inside a range ending at page `endPage`: each `get_resident` call
covers between 1 and 32 pages, the calls are contiguous from `p` and stay
inside the range, and a call is followed by another one only if every page
it covered was resident. -/
def goodCalls (res : Nat → Bool) : Nat → Nat → List MincoreBatch → Bool
  | _, _, [] => true
  | p, endPage, c :: cs =>
    (c.startPage == p) && decide (1 ≤ c.numPages) && decide (c.numPages ≤ 32) &&
    decide (p + c.numPages ≤ endPage) &&
    (cs.isEmpty || allResident res p c.numPages) &&
    goodCalls res (p + c.numPages) endPage cs

/-- Modelled from the spec's words for the residency algorithm (spec §4.3
step 3): the number of leading consecutive resident pages among `n` pages
starting at page `s`. -/
def residentRun (res : Nat → Bool) (s : Nat) : Nat → Nat
  | 0 => 0
  | n + 1 => if res s then residentRun res (s + 1) n + 1 else 0

/-- The residency count as claim C1 states it (spec §4.3 steps 1-4): the
contiguous resident page run scanned from the page-aligned start of the
range, converted to bytes, with the leading alignment slack subtracted
(genuine, non-wrapping subtraction) and the result clamped to at most the
requested `length`.  This is the spec-side definition against which the
code's `resident_len` is compared. -/
def resident_len_claimed (fb : FileBuffer) (res : Nat → Bool) (offset length : Nat) :
    Option Nat :=
  if offset + length ≤ fb.length then
    if fb.buffer = 0 then some 0
    else
      let aligned_offset := round_down_to offset fb.page_size
      let aligned_length := round_up_to (length + (offset - aligned_offset)) fb.page_size
      let num_pages := aligned_length / fb.page_size
      some (min length
        (residentRun res (aligned_offset / fb.page_size) num_pages * fb.page_size
          + aligned_offset - offset))
  else none

example : round_up_to 23 1024 = 1024 := by decide
example : round_up_to 1025 1024 = 2048 := by decide
example : round_down_to 1025 1024 = 1024 := by decide
example : wsub 0 100 = usizeMod - 100 := by decide
example : resident_len ⟨4096, 4096, 150⟩ (fun _ => false) 100 50 = some 50 := by decide
example : resident_len_claimed ⟨4096, 4096, 150⟩ (fun _ => false) 100 50 = some 0 := by decide
example : resident_len ⟨4096, 4096, 150⟩ (fun _ => true) 100 50 = some 50 := by decide
example : resident_len_claimed ⟨4096, 4096, 150⟩ (fun _ => true) 100 50 = some 50 := by decide

/-! ### Arithmetic lemmas about the word operations and the rounding mask -/

theorem usizeMod_pos : 0 < usizeMod := by decide

theorem wadd_eq {a b : Nat} (h : a + b < usizeMod) : wadd a b = a + b :=
  Nat.mod_eq_of_lt h

theorem wmul_eq {a b : Nat} (h : a * b < usizeMod) : wmul a b = a * b :=
  Nat.mod_eq_of_lt h

theorem wsub_eq {a b : Nat} (hb : b ≤ a) (ha : a < usizeMod) : wsub a b = a - b := by
  unfold wsub
  rw [Nat.mod_eq_of_lt ha, Nat.mod_eq_of_lt (lt_of_le_of_lt hb ha)]
  have hstep : a + (usizeMod - b) = usizeMod + (a - b) := by omega
  rw [hstep, Nat.add_mod_left]
  exact Nat.mod_eq_of_lt (by omega)

/-- AND-ing a value below `2^64` with the complement mask `!(2^s - 1)`
zeroes its low `s` bits, i.e. rounds it down to a multiple of `2^s`. -/
theorem land_wnot_mask (x s : Nat) (hx : x < usizeMod) (hs : s ≤ 64) :
    x &&& wnot (2 ^ s - 1) = 2 ^ s * (x / 2 ^ s) := by
  apply Nat.eq_of_testBit_eq
  intro i
  have hmax : usizeMax = 2 ^ 64 - 1 := rfl
  rw [wnot, hmax, Nat.testBit_land, Nat.testBit_xor,
      Nat.testBit_two_pow_sub_one, Nat.testBit_two_pow_sub_one]
  rw [show 2 ^ s * (x / 2 ^ s) = (x / 2 ^ s) <<< s by rw [Nat.shiftLeft_eq]; ring,
      ← Nat.shiftRight_eq_div_pow, Nat.testBit_shiftLeft, Nat.testBit_shiftRight]
  by_cases hi64 : i < 64
  · by_cases his : i < s
    · simp [his, hi64, Nat.not_le.mpr his]
    · have hsp : s + (i - s) = i := by omega
      simp [his, hi64, Nat.le_of_not_lt his, hsp, ge_iff_le]
  · have hxi : x.testBit i = false := by
      apply Nat.testBit_lt_two_pow
      calc x < usizeMod := hx
        _ = 2 ^ 64 := rfl
        _ ≤ 2 ^ i := Nat.pow_le_pow_right (by norm_num) (by omega)
    have his : ¬ i < s := by omega
    have hsp : s + (i - s) = i := by omega
    simp [hi64, his, hxi, hsp]

theorem round_down_to_eq (x s : Nat) (hx : x < usizeMod) (hs : s ≤ 64) :
    round_down_to x (2 ^ s) = 2 ^ s * (x / 2 ^ s) := by
  unfold round_down_to
  exact land_wnot_mask x s hx hs

theorem round_up_to_eq (x s : Nat) (hx : x + (2 ^ s - 1) < usizeMod) (hs : s ≤ 64) :
    round_up_to x (2 ^ s) = 2 ^ s * ((x + (2 ^ s - 1)) / 2 ^ s) := by
  unfold round_up_to wadd
  rw [Nat.mod_eq_of_lt hx]
  exact land_wnot_mask _ s hx hs

/-- Ceiling division bound: `x ≤ p * ((x + (p - 1)) / p)` for `p > 0`. -/
theorem le_mul_ceil (x p : Nat) (hp : 0 < p) : x ≤ p * ((x + (p - 1)) / p) := by
  have h := Nat.div_add_mod (x + (p - 1)) p
  have h2 : (x + (p - 1)) % p < p := Nat.mod_lt _ hp
  generalize hA : p * ((x + (p - 1)) / p) = A at h ⊢
  omega

/-- Shifting a ceiling by a whole multiple of `p` that fits under `z`. -/
theorem ceil_shift (z a p : Nat) (hp : 0 < p) (h : p * a ≤ z) :
    p * a + p * ((z - p * a + (p - 1)) / p) = p * ((z + (p - 1)) / p) := by
  have hz : z - p * a + (p - 1) = z + (p - 1) - p * a := by omega
  rw [hz, Nat.sub_mul_div _ _ _ (le_trans h (Nat.le_add_right _ _))]
  have hQ : a ≤ (z + (p - 1)) / p := by
    rw [Nat.le_div_iff_mul_le hp]
    calc a * p = p * a := Nat.mul_comm a p
      _ ≤ z := h
      _ ≤ z + (p - 1) := Nat.le_add_right _ _
  calc p * a + p * ((z + (p - 1)) / p - a)
      = p * (a + ((z + (p - 1)) / p - a)) := (Nat.mul_add p a _).symm
    _ = p * ((z + (p - 1)) / p) := by rw [Nat.add_sub_cancel' hQ]

/-! ### Unfolding lemmas for the runs and lemmas about the scan loop -/

theorem resident_len_run_eq (getRes : Nat → Nat → List Bool) (fb : FileBuffer)
    (offset length ao al np : Nat)
    (h1 : wadd offset length ≤ fb.length) (h2 : fb.buffer ≠ 0)
    (hao : ao = round_down_to offset fb.page_size)
    (hal : al = round_up_to (wadd length (wsub offset ao)) fb.page_size)
    (hnp : np = al / fb.page_size) :
    resident_len_run getRes fb offset length =
      some (min length
          (wsub (wadd (wmul (resident_scan getRes (ao / fb.page_size) np (np + 1) 0).1
            fb.page_size) ao) offset),
        (resident_scan getRes (ao / fb.page_size) np (np + 1) 0).2) := by
  subst hao hal hnp
  unfold resident_len_run
  rw [if_pos h1, if_neg h2]

theorem prefetch_run_eq (fb : FileBuffer) (offset length ao al : Nat)
    (h1 : wadd offset length ≤ fb.length) (h2 : fb.buffer ≠ 0)
    (hao : ao = round_down_to offset fb.page_size)
    (hal : al = round_up_to (wadd length (wsub offset ao)) fb.page_size) :
    prefetch_run fb offset length = some (some ⟨ao, al⟩) := by
  subst hao hal
  unfold prefetch_run
  rw [if_pos h1, if_neg h2]

theorem position_not_none_all (l : List Bool) (h : position_not l = none) :
    l.all id = true := by
  induction l with
  | nil => rfl
  | cons b bs ih =>
    by_cases hb : b = true
    · subst hb
      unfold position_not at h
      simp only [Bool.not_true, Bool.false_eq_true, if_false, Option.map_eq_none'] at h
      simpa using ih h
    · have hb' : b = false := by revert hb; cases b <;> simp
      subst hb'
      simp [position_not] at h

theorem position_not_replicate_true (n : Nat) :
    position_not (List.replicate n true) = none := by
  induction n with
  | zero => rfl
  | succ m ih => simp [List.replicate_succ, position_not, ih]

/-- On the Windows backend every page is reported resident, so the scan
accumulates every remaining page. -/
theorem resident_scan_windows (startPage num_pages : Nat) :
    ∀ fuel pages_checked, num_pages - pages_checked < fuel →
      (resident_scan windows_get_resident startPage num_pages fuel pages_checked).1
        = num_pages - pages_checked := by
  intro fuel
  induction fuel with
  | zero => intro pc h; omega
  | succ f ih =>
    intro pc hlt
    by_cases hpc : pc < num_pages
    · have hrec := ih (pc + min 32 (num_pages - pc)) (by omega)
      simp only [resident_scan, if_pos hpc, windows_get_resident,
        position_not_replicate_true, hrec]
      omega
    · simp only [resident_scan, if_neg hpc]
      omega

/-- The trace of `get_resident` calls of the scan loop is well-formed:
batches of 1 to 32 pages, contiguous from the start page, inside the
range, and continued only after a fully resident batch. -/
theorem resident_scan_goodCalls (res : Nat → Bool) (startPage num_pages : Nat) :
    ∀ fuel pages_checked, num_pages - pages_checked < fuel →
      goodCalls res (startPage + pages_checked) (startPage + num_pages)
        (resident_scan (unix_get_resident res) startPage num_pages fuel pages_checked).2
        = true := by
  intro fuel
  induction fuel with
  | zero => intro pc h; omega
  | succ f ih =>
    intro pc hlt
    by_cases hpc : pc < num_pages
    · have h1 : 1 ≤ min 32 (num_pages - pc) := by omega
      have h32 : min 32 (num_pages - pc) ≤ 32 := by omega
      have hend : (startPage + pc) + min 32 (num_pages - pc) ≤ startPage + num_pages := by omega
      simp only [resident_scan, if_pos hpc]
      cases hpos : position_not (unix_get_resident res (startPage + pc) (min 32 (num_pages - pc))) with
      | some i =>
        simp [goodCalls, h1, h32, hend]
      | none =>
        have hall : allResident res (startPage + pc) (min 32 (num_pages - pc)) = true :=
          position_not_none_all _ hpos
        have hrec := ih (pc + min 32 (num_pages - pc)) (by omega)
        rw [← Nat.add_assoc] at hrec
        simp [goodCalls, h1, h32, hend, hall, hrec]
    · simp only [resident_scan, if_neg hpc, goodCalls]

/-- If attempts `j .. n-1` are all busy and attempt `n` is not, the retry
loop reaches attempt `n` and its result decides the outcome. -/
theorem get_resident_retry_reaches (os : Nat → Int) :
    ∀ fuel j n, j ≤ n → n - j < fuel →
      (∀ k, j ≤ k → k < n → os k = EAGAIN) → os n ≠ EAGAIN →
      get_resident_retry os fuel j =
        (if os n = 0 then MincoreRun.success n else MincoreRun.assertFail n) := by
  intro fuel
  induction fuel with
  | zero => intro j n hj hlt; omega
  | succ f ih =>
    intro j n hj hlt hall hn
    by_cases hjn : j = n
    · subst hjn
      simp only [get_resident_retry]
      by_cases h0 : os j = 0
      · rw [if_pos (Or.inr h0), if_neg hn, if_pos h0]
      · rw [if_neg (fun h => h.elim hn h0), if_neg h0]
    · have hEg : os j = EAGAIN := hall j (le_refl j) (by omega)
      simp only [get_resident_retry]
      rw [if_pos (Or.inl hEg), if_pos hEg]
      exact ih (j + 1) n (by omega) (by omega) (fun k hk1 hk2 => hall k (by omega) hk2) hn

/-- While every attempt is busy, the loop is still retrying after any
amount of fuel: the retry has no bound. -/
theorem get_resident_retry_unbounded (os : Nat → Int) :
    ∀ fuel j, (∀ k, j ≤ k → k < j + fuel → os k = EAGAIN) →
      get_resident_retry os fuel j = MincoreRun.busy := by
  intro fuel
  induction fuel with
  | zero => intro j _; rfl
  | succ f ih =>
    intro j hall
    have hEg : os j = EAGAIN := hall j (le_refl j) (by omega)
    simp only [get_resident_retry]
    rw [if_pos (Or.inl hEg), if_pos hEg]
    exact ih (j + 1) (fun k hk1 hk2 => hall k (by omega) (by omega))

/-! ### The claims -/

/-- C9: the page-alignment arithmetic satisfies the spec's concrete
equations, and rounding `0` down to any power of two greater than zero
gives `0`. -/
theorem c9_round_to_equations (p k : Nat) (_hp : p = 2 ^ k) :
    round_up_to 23 1024 = 1024 ∧ round_up_to 1024 1024 = 1024 ∧
    round_up_to 1025 1024 = 2048 ∧ round_down_to 23 1024 = 0 ∧
    round_down_to 1024 1024 = 1024 ∧ round_down_to 1025 1024 = 1024 ∧
    round_down_to 0 p = 0 := by
  refine ⟨by decide, by decide, by decide, by decide, by decide, by decide, ?_⟩
  unfold round_down_to
  exact Nat.zero_and _

theorem c9_round_to_equations_witness :
    (1024 : Nat) = 2 ^ 10 ∧ round_down_to 0 1024 = 0 :=
  ⟨by decide, (c9_round_to_equations 1024 10 (by decide)).2.2.2.2.2.2⟩

/-- C1: the failing input for the claimed residency semantics.  With page
size 4096, mapped length 150, no page resident, `offset = 100` and
`length = 50`, the code returns the full requested length `50`: the
`usize` expression `pages_resident * page_size + aligned_offset - offset`
wraps below zero (`0 + 0 - 100`) and the clamp then selects `length`.
The algorithm the claim (and the spec) states — the byte count of the
contiguous resident page run, slack subtracted, clamped — yields `0`. -/
theorem c1_resident_len_underflow :
    resident_len ⟨4096, 4096, 150⟩ (fun _ => false) 100 50 = some 50 ∧
    resident_len_claimed ⟨4096, 4096, 150⟩ (fun _ => false) 100 50 = some 0 :=
  ⟨by decide, by decide⟩

/-- C2 counterexample: with `offset = 2^64 - 1` and `length = 1` the
mathematical sum `offset + length` exceeds the total length `100`, yet the
wrapped `usize` sum is `0`, the bounds `assert!` passes, and both
`resident_len` and `prefetch` return normally instead of panicking. -/
theorem c2_overflowing_pair :
    100 < 2 ^ 64 - 1 + 1 ∧
    resident_len ⟨4096, 4096, 100⟩ (fun _ => false) (2 ^ 64 - 1) 1 = some 1 ∧
    prefetch_run ⟨4096, 4096, 100⟩ (2 ^ 64 - 1) 1 ≠ none :=
  ⟨by decide, by decide, by decide⟩

/-- C2 (amended): for every pair whose mathematical sum fits in `usize`,
an out-of-range `resident_len` or `prefetch` panics (returns no value);
pairs whose sum overflows `usize` can pass the wrapped bounds check and
return normally. -/
theorem c2_bounds_check_panics (getRes : Nat → Nat → List Bool) (fb : FileBuffer)
    (offset length : Nat) (hsum : offset + length ≤ usizeMax)
    (hgt : fb.length < offset + length) :
    resident_len_run getRes fb offset length = none ∧
    prefetch_run fb offset length = none := by
  have hw : wadd offset length = offset + length := by
    apply wadd_eq
    have hmax : usizeMax = usizeMod - 1 := rfl
    have hpos : 0 < usizeMod := usizeMod_pos
    omega
  constructor
  · unfold resident_len_run
    rw [hw, if_neg (by omega)]
  · unfold prefetch_run
    rw [hw, if_neg (by omega)]

theorem c2_bounds_check_panics_witness :
    101 + 0 ≤ usizeMax ∧ (FileBuffer.mk 4096 4096 100).length < 101 + 0 ∧
    resident_len_run (unix_get_resident (fun _ => false)) ⟨4096, 4096, 100⟩ 101 0 = none ∧
    prefetch_run ⟨4096, 4096, 100⟩ 101 0 = none := by
  refine ⟨by decide, by decide, ?_, ?_⟩
  · exact (c2_bounds_check_panics (unix_get_resident (fun _ => false))
      ⟨4096, 4096, 100⟩ 101 0 (by decide) (by decide)).1
  · exact (c2_bounds_check_panics (unix_get_resident (fun _ => false))
      ⟨4096, 4096, 100⟩ 101 0 (by decide) (by decide)).2

/-- C6: an `EAGAIN` result from `mincore` is never surfaced: while the
first `n` attempts return `EAGAIN` the loop is still retrying after those
`n` attempts (no retry bound, one yield per retry), and at the first
non-busy attempt the call returns normally when the result is `0` while
any other result is a fatal assertion failure — never a returned error. -/
theorem c6_mincore_retry (os : Nat → Int) (n : Nat)
    (hbusy : ∀ k, k < n → os k = EAGAIN) :
    (∀ fuel, n < fuel → os n ≠ EAGAIN →
       get_resident_retry os fuel 0 =
         (if os n = 0 then MincoreRun.success n else MincoreRun.assertFail n)) ∧
    get_resident_retry os n 0 = MincoreRun.busy := by
  constructor
  · intro fuel hfuel hn
    exact get_resident_retry_reaches os fuel 0 n (Nat.zero_le n) (by omega)
      (fun k _ hk => hbusy k hk) hn
  · exact get_resident_retry_unbounded os n 0 (fun k hk1 hk2 => hbusy k (by omega))

theorem c6_mincore_retry_witness :
    (∀ k, k < 2 → (if k < 2 then EAGAIN else 0) = EAGAIN) ∧
    get_resident_retry (fun k => if k < 2 then EAGAIN else 0) 3 0 = MincoreRun.success 2 ∧
    get_resident_retry (fun k => if k < 2 then EAGAIN else 0) 2 0 = MincoreRun.busy := by
  refine ⟨by decide, ?_, ?_⟩
  · have h := (c6_mincore_retry (fun k => if k < 2 then EAGAIN else 0) 2
      (fun k hk => by simp [hk])).1 3 (by omega) (by decide)
    rw [h, if_pos (by decide)]
  · exact (c6_mincore_retry (fun k => if k < 2 then EAGAIN else 0) 2
      (fun k hk => by simp [hk])).2

/-- C7: the base address is the null sentinel iff the length is zero:
mapping an empty file returns the sentinel without invoking the `mmap`
primitive; mapping a non-empty file (with `mmap` never returning the null
address on success) yields a non-null buffer carrying the non-zero file
length, so every successful `map_file` satisfies the biconditional; and
`leak` nulls buffer and length together, preserving it. -/
theorem c7_null_iff_empty (file_len : Nat) (mmap : Option Nat)
    (hmm : ∀ a, mmap = some a → a ≠ 0) :
    (file_len = 0 → map_file file_len mmap = ⟨false, .ok (0, 0)⟩) ∧
    (file_len ≠ 0 → ∀ buf len, (map_file file_len mmap).result = .ok (buf, len) →
       buf ≠ 0 ∧ len = file_len) ∧
    (∀ buf len, (map_file file_len mmap).result = .ok (buf, len) → (buf = 0 ↔ len = 0)) ∧
    (∀ fb : FileBuffer, (leak fb).2.buffer = 0 ∧ (leak fb).2.length = 0) := by
  refine ⟨?_, ?_, ?_, fun fb => ⟨rfl, rfl⟩⟩
  · intro h0
    subst h0
    rfl
  · intro hne buf len hok
    unfold map_file at hok
    by_cases hbig : file_len > usizeMax
    · rw [if_pos hbig] at hok
      exact absurd hok (by simp)
    · rw [if_neg hbig, if_neg hne] at hok
      cases hmmap : mmap with
      | none => rw [hmmap] at hok; exact absurd hok (by simp)
      | some a =>
        rw [hmmap] at hok
        simp only [Except.ok.injEq, Prod.mk.injEq] at hok
        exact ⟨hok.1 ▸ hmm a hmmap, hok.2.symm⟩
  · intro buf len hok
    by_cases hne : file_len = 0
    · subst hne
      have : buf = 0 ∧ len = 0 := by
        unfold map_file at hok
        rw [if_neg (by unfold usizeMax; omega), if_pos rfl] at hok
        simp only [Except.ok.injEq, Prod.mk.injEq] at hok
        exact ⟨hok.1.symm, hok.2.symm⟩
      simp [this.1, this.2]
    · have h := (by
        intro hne2 buf2 len2 hok2
        unfold map_file at hok2
        by_cases hbig : file_len > usizeMax
        · rw [if_pos hbig] at hok2; exact absurd hok2 (by simp)
        · rw [if_neg hbig, if_neg hne2] at hok2
          cases hmmap : mmap with
          | none => rw [hmmap] at hok2; exact absurd hok2 (by simp)
          | some a =>
            rw [hmmap] at hok2
            simp only [Except.ok.injEq, Prod.mk.injEq] at hok2
            exact ⟨hok2.1 ▸ hmm a hmmap, hok2.2.symm⟩ :
          file_len ≠ 0 → ∀ buf len, (map_file file_len mmap).result = .ok (buf, len) →
            buf ≠ 0 ∧ len = file_len) hne buf len hok
      constructor
      · intro hb; exact absurd hb h.1
      · intro hl; exact absurd (h.2 ▸ hl) hne

theorem c7_null_iff_empty_witness :
    map_file 0 none = ⟨false, .ok (0, 0)⟩ ∧
    (∀ buf len, (map_file 5 (some 4096)).result = .ok (buf, len) → buf ≠ 0 ∧ len = 5) := by
  constructor
  · exact (c7_null_iff_empty 0 none (fun a h => by cases h)).1 rfl
  · exact (c7_null_iff_empty 5 (some 4096)
      (fun a h => by injection h with h2; omega)).2.1 (by omega)

/-- C8: on the two-step platform, if `CreateFileMappingW` succeeds and
`MapViewOfFile` fails, the acquired mapping handle is closed exactly once
before the error propagates; if `CreateFileMappingW` itself fails no
handle close is attempted; and on success nothing is closed during
construction — so no double release happens on any path. -/
theorem c8_partial_failure_release (file_len createMapping mapView : Nat)
    (hlen : file_len ≤ usizeMax) (hne : file_len ≠ 0) :
    (createMapping ≠ 0 → mapView = 0 →
       win_map_file file_len createMapping mapView =
         ⟨[ReleaseEvent.closeMappingHandle createMapping], Except.error ()⟩) ∧
    (createMapping = 0 →
       win_map_file file_len createMapping mapView = ⟨[], Except.error ()⟩) ∧
    (createMapping ≠ 0 → mapView ≠ 0 →
       (win_map_file file_len createMapping mapView).closes = []) := by
  have hbig : ¬ file_len > usizeMax := Nat.not_lt.mpr hlen
  refine ⟨?_, ?_, ?_⟩
  · intro hc hm
    unfold win_map_file
    rw [if_neg hbig, if_neg hne, if_neg hc, if_pos hm]
    unfold winPlatformDropEvents
    rw [if_neg hc]
  · intro hc
    unfold win_map_file
    rw [if_neg hbig, if_neg hne, if_pos hc]
    unfold winPlatformDropEvents
    rw [if_pos hc]
  · intro hc hm
    unfold win_map_file
    rw [if_neg hbig, if_neg hne, if_neg hc, if_neg hm]

theorem c8_partial_failure_release_witness :
    win_map_file 5 7 0 = ⟨[ReleaseEvent.closeMappingHandle 7], Except.error ()⟩ ∧
    win_map_file 5 0 9 = ⟨[], Except.error ()⟩ ∧
    (win_map_file 5 7 9).closes = [] := by
  refine ⟨?_, ?_, ?_⟩
  · exact (c8_partial_failure_release 5 7 0 (by decide) (by decide)).1 (by decide) rfl
  · exact (c8_partial_failure_release 5 0 9 (by decide) (by decide)).2.1 rfl
  · exact (c8_partial_failure_release 5 7 9 (by decide) (by decide)).2.2 (by decide) (by decide)

/-- C3 counterexample: on Windows, destruction of a leaked `FileBuffer`
still releases a platform resource: the platform-data destructor closes
the file-mapping object handle (here handle `7`), so "releases no
platform resource at all" fails. -/
theorem c3_leak_still_closes_handle :
    winDropEvents (winLeak ⟨4096, 4096, 100, ⟨7⟩⟩).2 =
      [ReleaseEvent.closeMappingHandle 7] := by decide

/-- C3 (amended): the mapped view is released exactly once per acquired
mapping: without `leak`, destruction unmaps the view exactly once on
either platform; after `leak`, the view is never unmapped — on Unix
destruction then releases nothing, while on Windows the platform-data
destructor still closes the file-mapping object handle. -/
theorem c3_release_discipline (fb : FileBuffer) (wfb : WinFileBuffer)
    (hfb : fb.buffer ≠ 0) (hwfb : wfb.buffer ≠ 0) :
    unixDropEvents fb = [ReleaseEvent.unmapView] ∧
    unixDropEvents (leak fb).2 = [] ∧
    (winDropEvents wfb).count ReleaseEvent.unmapView = 1 ∧
    (winDropEvents (winLeak wfb).2).count ReleaseEvent.unmapView = 0 ∧
    winDropEvents (winLeak wfb).2 = winPlatformDropEvents wfb.platform_data := by
  refine ⟨?_, ?_, ?_, ?_, ?_⟩
  · unfold unixDropEvents
    rw [if_neg hfb]
  · rfl
  · unfold winDropEvents
    rw [if_neg hwfb]
    unfold winPlatformDropEvents
    by_cases hh : wfb.platform_data.mapping_handle = 0
    · rw [if_pos hh]; rfl
    · rw [if_neg hh]; rfl
  · unfold winDropEvents winLeak winPlatformDropEvents
    by_cases hh : wfb.platform_data.mapping_handle = 0
    · rw [if_pos hh]; rfl
    · rw [if_neg hh]; rfl
  · rfl

theorem c3_release_discipline_witness :
    unixDropEvents ⟨4096, 4096, 100⟩ = [ReleaseEvent.unmapView] ∧
    unixDropEvents (leak ⟨4096, 4096, 100⟩).2 = [] ∧
    (winDropEvents (winLeak ⟨4096, 4096, 100, ⟨7⟩⟩).2).count ReleaseEvent.unmapView = 0 := by
  refine ⟨?_, ?_, ?_⟩
  · exact (c3_release_discipline ⟨4096, 4096, 100⟩ ⟨4096, 4096, 100, ⟨7⟩⟩
      (by decide) (by decide)).1
  · exact (c3_release_discipline ⟨4096, 4096, 100⟩ ⟨4096, 4096, 100, ⟨7⟩⟩
      (by decide) (by decide)).2.1
  · exact (c3_release_discipline ⟨4096, 4096, 100⟩ ⟨4096, 4096, 100, ⟨7⟩⟩
      (by decide) (by decide)).2.2.2.1

theorem resident_scan_windows_all (sp np : Nat) :
    (resident_scan windows_get_resident sp np (np + 1) 0).1 = np := by
  have h := resident_scan_windows sp np (np + 1) 0 (by omega)
  simpa using h

/-- C4: on the platform without a residency-query facility (Windows),
`resident_len` returns exactly the requested `length` for every in-bounds
query on a non-empty mapping, because the backend reports every page as
resident unconditionally. -/
theorem c4_windows_resident_len (P B L offset length s : Nat)
    (hbuf : B ≠ 0) (hps : P = 2 ^ s) (hs : s ≤ 63)
    (hb : offset + length ≤ L) (hfit : L + 2 * P ≤ usizeMod) :
    resident_len_windows ⟨P, B, L⟩ offset length = some length := by
  subst hps
  have hp0 : 0 < 2 ^ s := Nat.two_pow_pos s
  have hM : usizeMod = 2 ^ 64 := rfl
  have hlen : L < usizeMod := by omega
  have hofflt : offset < usizeMod := by omega
  have h1 : wadd offset length ≤ (FileBuffer.mk (2 ^ s) B L).length := by
    show wadd offset length ≤ L
    rw [wadd_eq (by omega)]
    exact hb
  have hao : round_down_to offset (2 ^ s) = 2 ^ s * (offset / 2 ^ s) :=
    round_down_to_eq offset s hofflt (by omega)
  have hdm := Nat.div_add_mod offset (2 ^ s)
  have hmlt : offset % 2 ^ s < 2 ^ s := Nat.mod_lt offset hp0
  have haole : round_down_to offset (2 ^ s) ≤ offset := by
    rw [hao, Nat.mul_comm]
    exact Nat.div_mul_le_self offset (2 ^ s)
  have hslack : wsub offset (round_down_to offset (2 ^ s)) = offset % 2 ^ s := by
    rw [wsub_eq haole hofflt, hao]
    omega
  have hlenle : length ≤ L := by omega
  have harg : wadd length (offset % 2 ^ s) = length + offset % 2 ^ s :=
    wadd_eq (by omega)
  have hal : round_up_to (length + offset % 2 ^ s) (2 ^ s)
      = 2 ^ s * ((length + offset % 2 ^ s + (2 ^ s - 1)) / 2 ^ s) :=
    round_up_to_eq _ s (by omega) (by omega)
  have hnp : round_up_to (length + offset % 2 ^ s) (2 ^ s) / 2 ^ s
      = (length + offset % 2 ^ s + (2 ^ s - 1)) / 2 ^ s := by
    rw [hal]
    exact Nat.mul_div_cancel_left _ hp0
  have hrun := resident_len_run_eq windows_get_resident ⟨2 ^ s, B, L⟩ offset length
    (round_down_to offset (2 ^ s))
    (round_up_to (wadd length (wsub offset (round_down_to offset (2 ^ s)))) (2 ^ s))
    (round_up_to (wadd length (wsub offset (round_down_to offset (2 ^ s)))) (2 ^ s) / 2 ^ s)
    h1 hbuf rfl rfl rfl
  unfold resident_len_windows
  rw [hrun, Option.map_some']
  show some (min length _) = some length
  rw [hslack, harg, hnp, resident_scan_windows_all, hao]
  set C := (length + offset % 2 ^ s + (2 ^ s - 1)) / 2 ^ s with hC
  have hCub : 2 ^ s * C ≤ length + offset % 2 ^ s + (2 ^ s - 1) := by
    rw [hC]
    exact Nat.mul_div_le _ _
  have hClb : length + offset % 2 ^ s ≤ 2 ^ s * C := by
    rw [hC]
    exact le_mul_ceil _ _ hp0
  have hmulC : wmul C (2 ^ s) = 2 ^ s * C := by
    unfold wmul
    rw [Nat.mul_comm]
    exact Nat.mod_eq_of_lt (by omega)
  rw [hmulC]
  rw [wadd_eq (by omega), wsub_eq (by omega) (by omega)]
  rw [min_eq_left (by omega)]

/-- C5: every invocation of `resident_len` whose bounds check passes on a
non-empty mapping issues `get_resident` calls of at most 32 pages each
(and at least one), contiguous in order from the page-aligned start of the
range, staying inside the page-aligned range, and continuing past a batch
only when every page of that batch was resident. -/
theorem c5_resident_len_batches (fb : FileBuffer) (res : Nat → Bool) (offset length : Nat)
    (h1 : wadd offset length ≤ fb.length) (h2 : fb.buffer ≠ 0) :
    ∃ calls, resident_len_calls fb res offset length = some calls ∧
      goodCalls res (round_down_to offset fb.page_size / fb.page_size)
        (round_down_to offset fb.page_size / fb.page_size +
          round_up_to (wadd length (wsub offset (round_down_to offset fb.page_size)))
            fb.page_size / fb.page_size)
        calls = true := by
  have hrun := resident_len_run_eq (unix_get_resident res) fb offset length
    (round_down_to offset fb.page_size)
    (round_up_to (wadd length (wsub offset (round_down_to offset fb.page_size))) fb.page_size)
    (round_up_to (wadd length (wsub offset (round_down_to offset fb.page_size))) fb.page_size
      / fb.page_size)
    h1 h2 rfl rfl rfl
  refine ⟨(resident_scan (unix_get_resident res)
      (round_down_to offset fb.page_size / fb.page_size)
      (round_up_to (wadd length (wsub offset (round_down_to offset fb.page_size))) fb.page_size
        / fb.page_size)
      (round_up_to (wadd length (wsub offset (round_down_to offset fb.page_size))) fb.page_size
        / fb.page_size + 1)
      0).2, ?_, ?_⟩
  · unfold resident_len_calls
    rw [hrun, Option.map_some']
  · have hg := resident_scan_goodCalls res
      (round_down_to offset fb.page_size / fb.page_size)
      (round_up_to (wadd length (wsub offset (round_down_to offset fb.page_size))) fb.page_size
        / fb.page_size)
      (round_up_to (wadd length (wsub offset (round_down_to offset fb.page_size))) fb.page_size
        / fb.page_size + 1)
      0 (by rw [Nat.sub_zero]; exact Nat.lt_succ_self _)
    rw [Nat.add_zero] at hg
    exact hg

theorem c5_resident_len_batches_witness :
    wadd 0 163840 ≤ (FileBuffer.mk 4096 4096 163840).length ∧
    (∃ calls,
      resident_len_calls ⟨4096, 4096, 163840⟩ (fun p => decide (p ≠ 35)) 0 163840 = some calls ∧
      goodCalls (fun p => decide (p ≠ 35))
        (round_down_to 0 4096 / 4096)
        (round_down_to 0 4096 / 4096 +
          round_up_to (wadd 163840 (wsub 0 (round_down_to 0 4096))) 4096 / 4096)
        calls = true) :=
  ⟨by decide, c5_resident_len_batches ⟨4096, 4096, 163840⟩ (fun p => decide (p ≠ 35)) 0 163840
    (by decide) (by decide)⟩

/-- C10: for every in-bounds prefetch on a non-empty mapping, the
page-aligned range passed to the OS advisory covers the requested range
and never extends past the page-rounded end of the mapping. -/
theorem c10_prefetch_alignment (P B L offset length s : Nat)
    (hbuf : B ≠ 0) (hps : P = 2 ^ s) (hs : s ≤ 63)
    (hb : offset + length ≤ L) (hfit : L + 2 * P ≤ usizeMod) :
    ∃ ao al, prefetch_run ⟨P, B, L⟩ offset length = some (some ⟨ao, al⟩) ∧
      ao ≤ offset ∧ offset + length ≤ ao + al ∧
      ao + al ≤ round_up_to L P := by
  subst hps
  have hp0 : 0 < 2 ^ s := Nat.two_pow_pos s
  have hM : usizeMod = 2 ^ 64 := rfl
  have hlen : L < usizeMod := by omega
  have hofflt : offset < usizeMod := by omega
  have h1 : wadd offset length ≤ (FileBuffer.mk (2 ^ s) B L).length := by
    show wadd offset length ≤ L
    rw [wadd_eq (by omega)]
    exact hb
  have hao : round_down_to offset (2 ^ s) = 2 ^ s * (offset / 2 ^ s) :=
    round_down_to_eq offset s hofflt (by omega)
  have hdm := Nat.div_add_mod offset (2 ^ s)
  have hmlt : offset % 2 ^ s < 2 ^ s := Nat.mod_lt offset hp0
  have haole : round_down_to offset (2 ^ s) ≤ offset := by
    rw [hao, Nat.mul_comm]
    exact Nat.div_mul_le_self offset (2 ^ s)
  have hslack : wsub offset (round_down_to offset (2 ^ s)) = offset % 2 ^ s := by
    rw [wsub_eq haole hofflt, hao]
    omega
  have hlenle : length ≤ L := by omega
  have harg : wadd length (offset % 2 ^ s) = length + offset % 2 ^ s :=
    wadd_eq (by omega)
  have hal : round_up_to (length + offset % 2 ^ s) (2 ^ s)
      = 2 ^ s * ((length + offset % 2 ^ s + (2 ^ s - 1)) / 2 ^ s) :=
    round_up_to_eq _ s (by omega) (by omega)
  have hClb : length + offset % 2 ^ s
      ≤ 2 ^ s * ((length + offset % 2 ^ s + (2 ^ s - 1)) / 2 ^ s) :=
    le_mul_ceil _ _ hp0
  have hruL : round_up_to L (2 ^ s) = 2 ^ s * ((L + (2 ^ s - 1)) / 2 ^ s) :=
    round_up_to_eq L s (by omega) (by omega)
  have hz : offset + length - 2 ^ s * (offset / 2 ^ s) = length + offset % 2 ^ s := by
    omega
  have hcs := ceil_shift (offset + length) (offset / 2 ^ s) (2 ^ s) hp0 (by omega)
  rw [hz] at hcs
  have hmono : 2 ^ s * ((offset + length + (2 ^ s - 1)) / 2 ^ s)
      ≤ 2 ^ s * ((L + (2 ^ s - 1)) / 2 ^ s) :=
    Nat.mul_le_mul_left _ (Nat.div_le_div_right (by omega))
  refine ⟨round_down_to offset (2 ^ s),
    round_up_to (wadd length (wsub offset (round_down_to offset (2 ^ s)))) (2 ^ s),
    prefetch_run_eq ⟨2 ^ s, B, L⟩ offset length _ _ h1 hbuf rfl rfl, haole, ?_, ?_⟩
  · rw [hslack, harg, hal, hao]
    omega
  · rw [hslack, harg, hal, hao, hruL]
    omega

theorem c4_windows_resident_len_witness :
    100 + 50 ≤ 150 ∧ resident_len_windows ⟨4096, 4096, 150⟩ 100 50 = some 50 :=
  ⟨by decide, c4_windows_resident_len 4096 4096 150 100 50 12 (by decide) (by decide)
    (by decide) (by decide) (by decide)⟩

theorem c10_prefetch_alignment_witness :
    100 + 50 ≤ 150 ∧
    (∃ ao al, prefetch_run ⟨4096, 4096, 150⟩ 100 50 = some (some ⟨ao, al⟩) ∧
      ao ≤ 100 ∧ 100 + 50 ≤ ao + al ∧ ao + al ≤ round_up_to 150 4096) :=
  ⟨by decide, c10_prefetch_alignment 4096 4096 150 100 50 12 (by decide) (by decide)
    (by decide) (by decide) (by decide)⟩
